import Mathlib

/-
Verification development for the concurrent paginated extraction engine of
gamesearch-llm (the Go lambda in lambdas/gamesearch-data/main.go).

The engine is embedded shallowly:

* The remote paginated API is a deterministic function
  `api : Nat → Except Unit (List α)`: at each offset it either fails
  (`FetchError`, modelled as `.error ()`) or returns the decoded page.
  `listApi records L` is the error-free API backed by a fixed record list:
  the page at `offset` is `(records.drop offset).take L`.

* `fetchAll` (source: `func (f *Fetcher[T]) fetchAll`) runs N workers over a
  shared offset channel.  Offsets form N independent lineages ("stripes"):
  the lineage seeded at `pageLimit*i` continues at `offset + pageLimit*N`
  while pages are full (`len(res) == pageLimit`), because the worker
  re-enqueues exactly that offset after a full page; on a partial page the
  records are still sent to the result channel and the worker returns; on a
  fetch error the worker logs and `continue`s WITHOUT re-enqueuing, so the
  lineage is abandoned.  Which goroutine serves which offset does not affect
  the multiset of collected records, so each lineage is modelled as the
  sequential `stripeRun` below, and the run's collection as the
  concatenation over lineages (`aggregated`).  Recursion is fuel-bounded;
  all theorems either fix a sufficient fuel or hold for every sufficient
  fuel, which is how termination claims are expressed.

* Two concurrency facts of the source are reflected as explicit gates in the
  model of the value `fetchAll` returns:
  - `offsetChan := make(chan int, 5)` is seeded with one offset per worker
    BEFORE any worker goroutine is spawned, so for `numWorkers > 5` the
    seeding loop blocks forever and `fetchAll` never returns;
  - a worker returns only on a partial page, and the offset/result channels
    are closed only after `wg.Wait()` sees all N workers return, so if any
    lineage ends without a partial page (i.e. by a fetch error) the
    `wg.Wait()` never completes and `fetchAll` never returns.
  A run that never returns is modelled as `none`; `aggregated` still
  describes the records that reached the result channel before the join
  stalls.
-/

namespace Gamesearch

/-- The page the deterministic record-backed API serves at `offset`:
`limit`/`offset` pagination over a fixed list (source: the IGDB query gets
`limit L; offset O;` appended and the server returns that slice). -/
def pageAt (records : List α) (pageLimit offset : Nat) : List α :=
  (records.drop offset).take pageLimit

/-- Error-free deterministic API backed by `records` with page limit `pageLimit`. -/
def listApi (records : List α) (pageLimit : Nat) : Nat → Except Unit (List α) :=
  fun offset => Except.ok (pageAt records pageLimit offset)

/-- Records collected by one offset lineage ("stripe") of `fetchAll`
(source lines 247-270): at `offset`, on `FetchError` the worker logs and
continues without re-enqueuing, which ends the lineage with nothing more
collected; on a partial page (`len(res) < pageLimit`) the page is sent to
the result channel and the worker returns; on a full page the page is sent
and the lineage continues at `offset + step` (`step = pageLimit*numWorkers`). -/
def stripeRun (api : Nat → Except Unit (List α)) (pageLimit step : Nat) :
    Nat → Nat → List α
  | 0, _ => []
  | fuel+1, offset =>
    match api offset with
    | Except.error _ => []
    | Except.ok res =>
      if res.length < pageLimit then res
      else res ++ stripeRun api pageLimit step fuel (offset + step)

/-- The offsets at which one lineage calls `fetchQuery` (every pulled offset
is attempted, including the erroring one and the terminal partial one). -/
def stripeOffsets (api : Nat → Except Unit (List α)) (pageLimit step : Nat) :
    Nat → Nat → List Nat
  | 0, _ => []
  | fuel+1, offset =>
    match api offset with
    | Except.error _ => [offset]
    | Except.ok res =>
      if res.length < pageLimit then [offset]
      else offset :: stripeOffsets api pageLimit step fuel (offset + step)

/-- The successive pages one lineage sends to the result channel. -/
def stripePages (api : Nat → Except Unit (List α)) (pageLimit step : Nat) :
    Nat → Nat → List (List α)
  | 0, _ => []
  | fuel+1, offset =>
    match api offset with
    | Except.error _ => []
    | Except.ok res =>
      if res.length < pageLimit then [res]
      else res :: stripePages api pageLimit step fuel (offset + step)

/-- Whether the lineage reaches a partial page within `fuel` attempts.  This
is the only way a worker returns (source line 264-267: `if len(res) <
pageLimit { ... return }`); a lineage abandoned by a `FetchError` never
produces this signal. -/
def stripeDone (api : Nat → Except Unit (List α)) (pageLimit step : Nat) :
    Nat → Nat → Bool
  | 0, _ => false
  | fuel+1, offset =>
    match api offset with
    | Except.error _ => false
    | Except.ok res =>
      if res.length < pageLimit then true
      else stripeDone api pageLimit step fuel (offset + step)

/-- The multiset of records that reach the result channel: concatenation of
all lineages, seeded at `pageLimit*i` for `i < numWorkers` (source lines
239-241) with stride `pageLimit*numWorkers` (source line 269). -/
def aggregated (api : Nat → Except Unit (List α)) (numWorkers pageLimit fuel : Nat) :
    List α :=
  ((List.range numWorkers).map fun i =>
    stripeRun api pageLimit (pageLimit * numWorkers) fuel (pageLimit * i)).flatten

/-- All workers returned: every lineage reached a partial page.  Only then do
`wg.Wait()` and the channel closes complete (source lines 274-279). -/
def allStripesDone (api : Nat → Except Unit (List α)) (numWorkers pageLimit fuel : Nat) :
    Bool :=
  (List.range numWorkers).all fun i =>
    stripeDone api pageLimit (pageLimit * numWorkers) fuel (pageLimit * i)

/-- The value `fetchAll` returns, `none` when the call never returns:
seeding `numWorkers > 5` offsets into the capacity-5 `offsetChan` before any
worker is spawned blocks forever (source line 234 `make(chan int, 5)` and
lines 239-241), and if some lineage never signals a partial page the
`wg.Wait()` join never completes (source lines 274-283). -/
def fetchAll (api : Nat → Except Unit (List α)) (numWorkers pageLimit fuel : Nat) :
    Option (List α) :=
  if 5 < numWorkers then none
  else if allStripesDone api numWorkers pageLimit fuel then
    some (aggregated api numWorkers pageLimit fuel)
  else none

/-- The set of offsets at which `fetchQuery` is called during a run (empty
when `numWorkers > 5`: the run blocks during seeding, before any worker
starts). -/
def attemptedOffsets (api : Nat → Except Unit (List α)) (numWorkers pageLimit fuel : Nat) :
    List Nat :=
  if 5 < numWorkers then []
  else ((List.range numWorkers).map fun i =>
    stripeOffsets api pageLimit (pageLimit * numWorkers) fuel (pageLimit * i)).flatten

/-- The pages produced by a run, as a list; a concrete run of the concurrent
code appends these to `results` in some arrival order, i.e. concatenates
some permutation of them. -/
def pagesOf (api : Nat → Except Unit (List α)) (numWorkers pageLimit fuel : Nat) :
    List (List α) :=
  if 5 < numWorkers then []
  else ((List.range numWorkers).map fun i =>
    stripePages api pageLimit (pageLimit * numWorkers) fuel (pageLimit * i)).flatten

/-- The API of the C2 scenario: K = 10 records, page limit 2, and a
`FetchError` exactly at offset 4. -/
def err10Api : Nat → Except Unit (List Nat) :=
  fun offset => if offset = 4 then Except.error () else Except.ok (pageAt (List.range 10) 2 offset)

-- ### Auth-token acquisition (C4)

/-- Decoded body of the auth exchange (source struct `AuthTokenResponse`;
note the source tags `TokenType` with the json key `string`). -/
structure AuthTokenResponse where
  accessToken : String
  expiresIn : Nat
  tokenType : String
deriving DecidableEq

/-- An HTTP response to the auth exchange: its status code and the result
of JSON-decoding its body into `AuthTokenResponse` (`none` = decode error).
A non-success status with a JSON error body decodes successfully into a
zero-valued `AuthTokenResponse`, since unknown JSON fields are ignored. -/
structure AuthHttpResponse where
  status : Nat
  decoded : Option AuthTokenResponse
deriving DecidableEq

/-- `retrieveAuthToken` (source lines 288-301): `http.Post`, propagate a
transport error, then decode the body and propagate a decode error.  The
source never inspects `res.StatusCode` — there is no status check in this
function (unlike `fetchQuery`, source line 219). -/
def retrieveAuthToken (resp : Except Unit AuthHttpResponse) :
    Except Unit AuthTokenResponse :=
  match resp with
  | Except.error e => Except.error e
  | Except.ok r =>
    match r.decoded with
    | none => Except.error ()
    | some tok => Except.ok tok

-- ### Orchestrator (fetchAndStoreData, C6/C7/C10)

/-- Entity records, with the field sets of the source structs. -/
structure Game where
  id : Int
  name : String
  firstReleaseDate : Int
  franchises : List Int
  genres : List Int
  summary : String
deriving DecidableEq

structure Genre where
  id : Int
  name : String
deriving DecidableEq

structure Franchise where
  id : Int
  name : String
  games : List Int
deriving DecidableEq

/-- Process environment of the run (`CLIENT_ID`, `CLIENT_SECRET`,
`S3_BUCKET`); an unset variable is the empty string, as in `os.Getenv`. -/
structure Env where
  clientID : String
  clientSecret : String
  s3Bucket : String
deriving DecidableEq

/-- The source `Fetcher[T]` struct: credentials, target URL and the shared
rate limiter.  Limiter sharing is by reference; references are modelled as
allocation indices, so `limiter` is the index of the `rate.NewLimiter`
allocation this fetcher points at (`ctx` and `logger` carry no data the
claims mention and are omitted). -/
structure Fetcher where
  clientID : String
  accessToken : String
  url : String
  limiter : Nat
deriving DecidableEq

/-- Observable events of one `fetchAndStoreData` run. -/
inductive RunEvent where
  | allocLimiter (r burst : Nat)
  | wait (limiter : Nat)
  | fetchCall (url : String) (offset : Nat)
  | uploadAttempt (key : String) (ok : Bool)
deriving DecidableEq

def RunEvent.isAlloc : RunEvent → Bool
  | RunEvent.allocLimiter _ _ => true
  | _ => false

/-- Events of one lineage of a `fetchAll` worker loop: each pulled offset
first waits on the fetcher's limiter (source line 248 `f.limiter.Wait`) and
then issues the `fetchQuery` request (source line 254); the lineage
continues only after a full page. -/
def stripeEvents (f : Fetcher) (api : Nat → Except Unit (List κ)) (pageLimit step : Nat) :
    Nat → Nat → List RunEvent
  | 0, _ => []
  | fuel+1, offset =>
    RunEvent.wait f.limiter :: RunEvent.fetchCall f.url offset ::
      (match api offset with
       | Except.error _ => []
       | Except.ok res =>
         if res.length < pageLimit then []
         else stripeEvents f api pageLimit step fuel (offset + step))

/-- All limiter-wait and request events of one `fetchAll` call (empty for
`numWorkers > 5`: the call blocks during seeding before any worker runs). -/
def fetchAllEvents (f : Fetcher) (api : Nat → Except Unit (List κ))
    (numWorkers pageLimit fuel : Nat) : List RunEvent :=
  if 5 < numWorkers then []
  else ((List.range numWorkers).map fun i =>
    stripeEvents f api pageLimit (pageLimit * numWorkers) fuel (pageLimit * i)).flatten

/-- `uploadToS3` (source lines 314-330): fail if `S3_BUCKET` is unset, then
attempt the PutObject; `uploadOk` models whether the PutObject for a given
key succeeds. -/
def uploadToS3 (env : Env) (uploadOk : String → Bool) (key : String) :
    Except String Unit :=
  if env.s3Bucket = "" then Except.error ("S3_BUCKET variable is required but not set")
  else if uploadOk key then Except.ok ()
  else Except.error ("Failed to upload data to S3")

/-- The keys of `fileMap` (source lines 387-391).  Go iterates maps in
unspecified order; the model fixes this order, which no claim depends on. -/
def fileNames : List String := ["games.json", "genres.json", "franchises.json"]

/-- The marshal-and-upload loop (source lines 393-403): a kind whose
`json.MarshalIndent` fails is logged and skipped (`continue`); otherwise
the upload is attempted and its error, if any, is only logged. -/
def uploadPhase (env : Env) (marshalOk uploadOk : String → Bool) : List RunEvent :=
  (fileNames.filter marshalOk).map fun n =>
    RunEvent.uploadAttempt n (uploadToS3 env uploadOk n).isOk

/-- The three fetchers of a run (source lines 352-385), all holding a
reference to the single limiter allocation (index 0). -/
def genresFetcher (env : Env) (tok : AuthTokenResponse) : Fetcher :=
  ⟨env.clientID, tok.accessToken, "https://api.igdb.com/v4/genres", 0⟩

def gamesFetcher (env : Env) (tok : AuthTokenResponse) : Fetcher :=
  ⟨env.clientID, tok.accessToken, "https://api.igdb.com/v4/games", 0⟩

def franchisesFetcher (env : Env) (tok : AuthTokenResponse) : Fetcher :=
  ⟨env.clientID, tok.accessToken, "https://api.igdb.com/v4/franchises", 0⟩

/-- Event trace of the post-auth part of a `fetchAndStoreData` run: the one
`rate.NewLimiter(4, 1)` allocation (source line 348), then the three
sequential `fetchAll` calls with `numWorkers := 3`, `pageLimit := 500`
(source lines 349-385), then the upload loop. -/
def runEvents (env : Env) (tok : AuthTokenResponse)
    (genresApi : Nat → Except Unit (List Genre))
    (gamesApi : Nat → Except Unit (List Game))
    (franchisesApi : Nat → Except Unit (List Franchise))
    (marshalOk uploadOk : String → Bool) (fuel : Nat) : List RunEvent :=
  RunEvent.allocLimiter 4 1 ::
    (fetchAllEvents (genresFetcher env tok) genresApi 3 500 fuel ++
      fetchAllEvents (gamesFetcher env tok) gamesApi 3 500 fuel ++
      fetchAllEvents (franchisesFetcher env tok) franchisesApi 3 500 fuel ++
      uploadPhase env marshalOk uploadOk)

/-- `fetchAndStoreData` (source lines 332-407): check credentials, acquire
the auth token (its result is the `auth` argument) and return its error
immediately on failure; otherwise run the three fetch pipelines and the
upload loop and return nil.  `none` models a run that never returns (some
lineage of some kind never reaches its partial page, so that `fetchAll`
never returns); otherwise the pair is the run's event trace and its return
value. -/
def fetchAndStoreData (env : Env) (auth : Except String AuthTokenResponse)
    (genresApi : Nat → Except Unit (List Genre))
    (gamesApi : Nat → Except Unit (List Game))
    (franchisesApi : Nat → Except Unit (List Franchise))
    (marshalOk uploadOk : String → Bool) (fuel : Nat) :
    Option (List RunEvent × Except String Unit) :=
  if env.clientID = "" ∨ env.clientSecret = "" then
    some ([], Except.error ("CLIENT_ID or CLIENT_SECRET variables are required but not set"))
  else
    match auth with
    | Except.error e => some ([], Except.error e)
    | Except.ok tok =>
      if allStripesDone genresApi 3 500 fuel
          && allStripesDone gamesApi 3 500 fuel
          && allStripesDone franchisesApi 3 500 fuel then
        some (runEvents env tok genresApi gamesApi franchisesApi marshalOk uploadOk fuel,
          Except.ok ())
      else none

-- ### Rate limiter (C9)

/-- Modelled from the spec: the shared `rate.Limiter` is an external
dependency (golang.org/x/time/rate), not part of this repository; §4.2 of
the spec describes it as a token bucket with capacity `burst` and refill
rate `r` tokens per second, whose `wait` suspends the caller until a token
is available.  State: current token count and the time of the last update. -/
structure LimiterState where
  tokens : ℚ
  last : ℚ
deriving DecidableEq

/-- Refill the bucket up to time `t`, capping at `burst`. -/
def limAdvance (r burst : ℚ) (s : LimiterState) (t : ℚ) : LimiterState :=
  ⟨min burst (s.tokens + r * (t - s.last)), t⟩

/-- A request may start (a `Wait` may return) at time `t`: time moves
forward and a full token is available after refilling. -/
def CanGrant (r burst : ℚ) (s : LimiterState) (t : ℚ) : Prop :=
  s.last ≤ t ∧ 1 ≤ (limAdvance r burst s t).tokens

/-- State after granting a request at time `t`: one token consumed. -/
def limGrant (r burst : ℚ) (s : LimiterState) (t : ℚ) : LimiterState :=
  ⟨(limAdvance r burst s t).tokens - 1, t⟩

/-- `GrantSeq r burst s ts`: starting from limiter state `s`, the times
`ts` are a possible sequence of request-starts granted by the shared
limiter — every worker of every entity kind obtains its `fetchQuery` start
this way, whatever the demand pattern. -/
inductive GrantSeq (r burst : ℚ) : LimiterState → List ℚ → Prop where
  | nil (s : LimiterState) : GrantSeq r burst s []
  | cons (s : LimiterState) (t : ℚ) (ts : List ℚ) :
      CanGrant r burst s t → GrantSeq r burst (limGrant r burst s t) ts →
      GrantSeq r burst s (t :: ts)

/-- Minimal spacing between consecutive grants of the 4-per-second,
burst-1 bucket. -/
def gapR (a b : ℚ) : Prop := a + 1/4 ≤ b

instance : IsTrans ℚ gapR :=
  ⟨fun a b c hab hbc => by unfold gapR at hab hbc ⊢; linarith⟩

-- ### Basic stripe lemmas

theorem pageAt_length (records : List α) (pageLimit offset : Nat) :
    (pageAt records pageLimit offset).length = min pageLimit (records.length - offset) := by
  simp [pageAt]

theorem stripeRun_past_end (records : List α) {pageLimit : Nat} (step : Nat)
    (hL : 1 ≤ pageLimit) (fuel : Nat) {offset : Nat} (h : records.length ≤ offset) :
    stripeRun (listApi records pageLimit) pageLimit step fuel offset = [] := by
  cases fuel with
  | zero => rfl
  | succ f =>
    have hdrop : records.drop offset = [] := List.drop_eq_nil_of_le h
    simp only [stripeRun, listApi, pageAt, hdrop]
    simp only [List.take_nil, List.length_nil]
    rw [if_pos (by omega)]

theorem stripeRun_shift (records : List α) (pageLimit step : Nat) (fuel : Nat) :
    ∀ offset d, stripeRun (listApi records pageLimit) pageLimit step fuel (offset + d)
      = stripeRun (listApi (records.drop d) pageLimit) pageLimit step fuel offset := by
  induction fuel with
  | zero => intro offset d; rfl
  | succ f ih =>
    intro offset d
    have hpage : pageAt records pageLimit (offset + d)
        = pageAt (records.drop d) pageLimit offset := by
      simp [pageAt, List.drop_drop, Nat.add_comm d offset]
    have harith : offset + d + step = offset + step + d := by omega
    simp only [stripeRun, listApi, hpage, harith, ih (offset + step) d]

theorem stripeRun_round (records : List α) {pageLimit d : Nat}
    (hL : 1 ≤ pageLimit) (hLd : pageLimit ≤ d) (fuel offset : Nat) :
    stripeRun (listApi records pageLimit) pageLimit d (fuel + 1) offset
      = pageAt records pageLimit offset
        ++ stripeRun (listApi (records.drop d) pageLimit) pageLimit d fuel offset := by
  by_cases hshort : (pageAt records pageLimit offset).length < pageLimit
  · have hlen : (records.drop d).length ≤ offset := by
      have := pageAt_length records pageLimit offset
      simp only [List.length_drop]
      omega
    rw [stripeRun_past_end (records.drop d) d hL fuel hlen]
    simp only [stripeRun, listApi]
    rw [if_pos hshort, List.append_nil]
  · simp only [stripeRun, listApi]
    rw [if_neg hshort, stripeRun_shift records pageLimit d fuel offset d]

theorem pages_tile (pageLimit : Nat) :
    ∀ (numWorkers : Nat) (records : List α),
      (((List.range numWorkers).map fun i => pageAt records pageLimit (pageLimit * i)).flatten)
        = records.take (pageLimit * numWorkers) := by
  intro numWorkers
  induction numWorkers with
  | zero => intro records; simp
  | succ n ih =>
    intro records
    rw [List.range_succ_eq_map]
    simp only [List.map_cons, List.map_map, List.flatten_cons]
    have hmap : ((List.range n).map fun i =>
        pageAt records pageLimit (pageLimit * (Nat.succ i)))
        = (List.range n).map fun i => pageAt (records.drop pageLimit) pageLimit (pageLimit * i) := by
      apply List.map_congr_left
      intro i _
      have : pageLimit * Nat.succ i = pageLimit + pageLimit * i := by
        rw [Nat.mul_succ]; omega
      simp [pageAt, this, List.drop_drop]
    have hcomp : ((fun i => pageAt records pageLimit (pageLimit * i)) ∘ Nat.succ)
        = fun i => pageAt records pageLimit (pageLimit * (Nat.succ i)) := rfl
    rw [hcomp, hmap, ih (records.drop pageLimit)]
    have h0 : pageAt records pageLimit (pageLimit * 0) = records.take pageLimit := by
      simp [pageAt]
    rw [h0, ← List.take_add]
    have : pageLimit + pageLimit * n = pageLimit * Nat.succ n := by
      rw [Nat.mul_succ]; omega
    rw [this]

theorem flatten_map_append_perm (l : List ι) (f g : ι → List α) :
    List.Perm ((l.map fun i => f i ++ g i).flatten)
      ((l.map f).flatten ++ (l.map g).flatten) := by
  induction l with
  | nil => simp
  | cons a l ih =>
    simp only [List.map_cons, List.flatten_cons]
    have hfg : List.Perm (g a ++ ((l.map f).flatten ++ (l.map g).flatten))
        ((l.map f).flatten ++ (g a ++ (l.map g).flatten)) := by
      rw [← List.append_assoc, ← List.append_assoc]
      exact List.Perm.append_right _ List.perm_append_comm
    refine (ih.append_left (f a ++ g a)).trans ?_
    rw [List.append_assoc, List.append_assoc]
    exact List.Perm.append_left (f a) hfg

theorem aggregated_perm {pageLimit numWorkers : Nat}
    (hL : 1 ≤ pageLimit) (hN : 1 ≤ numWorkers) :
    ∀ (fuel : Nat) (records : List α), records.length + 1 ≤ fuel →
      List.Perm (aggregated (listApi records pageLimit) numWorkers pageLimit fuel) records := by
  intro fuel
  induction fuel with
  | zero => intro records h; omega
  | succ f ih =>
    intro records hfuel
    have hLd : pageLimit ≤ pageLimit * numWorkers := Nat.le_mul_of_pos_right pageLimit hN
    have hLN : 1 ≤ pageLimit * numWorkers := Nat.mul_pos hL hN
    by_cases hnil : records.length = 0
    · have hrec : records = [] := List.length_eq_zero.mp hnil
      subst hrec
      have hall : ∀ l ∈ (List.range numWorkers).map fun i =>
          stripeRun (listApi ([] : List α) pageLimit) pageLimit (pageLimit * numWorkers)
            (f + 1) (pageLimit * i), l = [] := by
        intro l hl
        obtain ⟨i, _, rfl⟩ := List.mem_map.mp hl
        exact stripeRun_past_end [] (pageLimit * numWorkers) hL (f + 1) (by simp)
      have : aggregated (listApi ([] : List α) pageLimit) numWorkers pageLimit (f + 1) = [] := by
        unfold aggregated
        exact List.flatten_eq_nil_iff.mpr hall
      rw [this]
    · have hmap : ((List.range numWorkers).map fun i =>
          stripeRun (listApi records pageLimit) pageLimit (pageLimit * numWorkers)
            (f + 1) (pageLimit * i))
          = (List.range numWorkers).map fun i =>
              pageAt records pageLimit (pageLimit * i)
                ++ stripeRun (listApi (records.drop (pageLimit * numWorkers)) pageLimit)
                    pageLimit (pageLimit * numWorkers) f (pageLimit * i) := by
        apply List.map_congr_left
        intro i _
        exact stripeRun_round records hL hLd f (pageLimit * i)
      have hsplit := flatten_map_append_perm (List.range numWorkers)
        (fun i => pageAt records pageLimit (pageLimit * i))
        (fun i => stripeRun (listApi (records.drop (pageLimit * numWorkers)) pageLimit)
          pageLimit (pageLimit * numWorkers) f (pageLimit * i))
      have hih := ih (records.drop (pageLimit * numWorkers))
        (by simp only [List.length_drop]; omega)
      unfold aggregated
      rw [hmap]
      refine hsplit.trans ?_
      rw [pages_tile pageLimit numWorkers records]
      have htail : List.Perm
          (((List.range numWorkers).map fun i =>
            stripeRun (listApi (records.drop (pageLimit * numWorkers)) pageLimit)
              pageLimit (pageLimit * numWorkers) f (pageLimit * i)).flatten)
          (records.drop (pageLimit * numWorkers)) := hih
      refine (htail.append_left (records.take (pageLimit * numWorkers))).trans ?_
      rw [List.take_append_drop]

theorem stripeDone_listApi (records : List α) {pageLimit step : Nat}
    (hL : 1 ≤ pageLimit) (hstep : 1 ≤ step) :
    ∀ (fuel offset : Nat), records.length ≤ offset + fuel →
      stripeDone (listApi records pageLimit) pageLimit step (fuel + 1) offset = true := by
  intro fuel
  induction fuel with
  | zero =>
    intro offset h
    have : (pageAt records pageLimit offset).length < pageLimit := by
      rw [pageAt_length]; omega
    simp [stripeDone, listApi, this]
  | succ f ih =>
    intro offset h
    by_cases hshort : (pageAt records pageLimit offset).length < pageLimit
    · simp [stripeDone, listApi, hshort]
    · have := ih (offset + step) (by omega)
      simp only [stripeDone, listApi]
      rw [if_neg hshort]
      exact this

theorem allStripesDone_listApi (records : List α) {pageLimit numWorkers fuel : Nat}
    (hL : 1 ≤ pageLimit) (hN : 1 ≤ numWorkers) (hfuel : records.length + 1 ≤ fuel) :
    allStripesDone (listApi records pageLimit) numWorkers pageLimit fuel = true := by
  have hstep : 1 ≤ pageLimit * numWorkers := Nat.mul_pos hL hN
  unfold allStripesDone
  rw [List.all_eq_true]
  intro i _
  obtain ⟨f, rfl⟩ : ∃ f, fuel = f + 1 := ⟨fuel - 1, by omega⟩
  exact stripeDone_listApi records hL hstep f (pageLimit * i) (by omega)

/-- C1 (amended): against the deterministic record-backed API with page limit
`pageLimit ≥ 1` and any worker count `1 ≤ numWorkers ≤ 5`, `fetchAll`
terminates — it returns, for every sufficient fuel — and the returned
collection is a permutation of the K records (each record exactly once, so
exactly K records).  The restriction `numWorkers ≤ 5` is forced by the
source: the capacity-5 offset channel is seeded with `numWorkers` offsets
before any worker starts. -/
theorem fetchAll_terminates_and_returns_all (records : List α)
    (numWorkers pageLimit fuel : Nat) (hL : 1 ≤ pageLimit) (hN : 1 ≤ numWorkers)
    (hN5 : numWorkers ≤ 5) (hfuel : records.length + 1 ≤ fuel) :
    fetchAll (listApi records pageLimit) numWorkers pageLimit fuel
        = some (aggregated (listApi records pageLimit) numWorkers pageLimit fuel)
      ∧ List.Perm (aggregated (listApi records pageLimit) numWorkers pageLimit fuel) records
      ∧ (aggregated (listApi records pageLimit) numWorkers pageLimit fuel).length
          = records.length := by
  have hperm := aggregated_perm hL hN fuel records hfuel
  refine ⟨?_, hperm, hperm.length_eq⟩
  unfold fetchAll
  rw [if_neg (by omega), if_pos (allStripesDone_listApi records hL hN hfuel)]

/-- C1 counterexample: the claim quantifies over every worker count N ≥ 1,
but with N = 6 the source seeds six offsets into the capacity-5
`offsetChan` before spawning any worker, so `fetchAll` blocks forever and
never returns any collection (modelled as `none`); here K = 5, L = 2. -/
theorem fetchAll_six_workers_never_returns :
    fetchAll (listApi [0, 1, 2, 3, 4] 2) 6 2 100 = none
      ∧ (fetchAll (listApi [0, 1, 2, 3, 4] 2) 6 2 100).isSome = false := by
  constructor <;> rfl

/-- C1 witness: the exact-fit scenario K = 5, L = 2, N = 2 from the claim —
`fetchAll` returns and the collection is exactly the 5 records. -/
theorem fetchAll_witness_exact_fit :
    (1 ≤ 2 ∧ 1 ≤ 2 ∧ 2 ≤ 5 ∧ ([0, 1, 2, 3, 4] : List Nat).length + 1 ≤ 6)
      ∧ fetchAll (listApi [0, 1, 2, 3, 4] 2) 2 2 6
          = some (aggregated (listApi [0, 1, 2, 3, 4] 2) 2 2 6)
      ∧ List.Perm (aggregated (listApi [0, 1, 2, 3, 4] 2) 2 2 6) [0, 1, 2, 3, 4]
      ∧ (aggregated (listApi [0, 1, 2, 3, 4] 2) 2 2 6).length = 5 := by
  have h := fetchAll_terminates_and_returns_all ([0, 1, 2, 3, 4] : List Nat) 2 2 6
    (by decide) (by decide) (by decide) (by decide)
  exact ⟨by decide, h.1, h.2.1, h.2.2⟩

/-- C2 counterexample: with K = 10, L = 2, N = 2 and a `FetchError` at
offset 4, the records that reach the result channel are the 6 records at
offsets 0, 2 and 6 — not 8: offset 8's page is also lost, because the error
path `continue`s without re-enqueuing, abandoning the rest of the stripe.
Moreover the run never completes (`none`): the abandoned stripe never
yields the partial-page signal, so the worker join blocks forever. -/
theorem err10_loses_stripe_tail :
    aggregated err10Api 2 2 11 = [0, 1, 2, 3, 6, 7]
      ∧ (aggregated err10Api 2 2 11).length ≠ 8
      ∧ fetchAll err10Api 2 2 11 = none := by
  refine ⟨by decide, by decide, by decide⟩

/-- C2 (amended): in the offset-4-failure scenario the failed offset is
attempted exactly once and never re-queued (attempts are 0, 4 for the
first stripe and 2, 6, 10 for the second), the aggregator receives exactly
the 6 records at offsets 0, 2, 6 (the pages at offset 4 and at its stripe
successor 8 are both lost), the failed stripe never reaches a partial page,
and the run as a whole never returns. -/
theorem err10_amended_behaviour :
    attemptedOffsets err10Api 2 2 11 = [0, 4, 2, 6, 10]
      ∧ aggregated err10Api 2 2 11 = [0, 1, 2, 3, 6, 7]
      ∧ stripeDone err10Api 2 4 11 0 = false
      ∧ stripeDone err10Api 2 4 11 2 = true
      ∧ fetchAll err10Api 2 2 11 = none := by
  refine ⟨by decide, by decide, by decide, by decide, by decide⟩

-- ### Offset-coverage lemmas (C3)

theorem stripeOffsets_sound (api : Nat → Except Unit (List α)) (pageLimit step : Nat) :
    ∀ (fuel offset x : Nat), x ∈ stripeOffsets api pageLimit step fuel offset →
      ∃ k, x = offset + k * step
        ∧ ∀ k' < k, ∃ res, api (offset + k' * step) = Except.ok res
            ∧ pageLimit ≤ res.length := by
  intro fuel
  induction fuel with
  | zero => intro offset x hx; simp [stripeOffsets] at hx
  | succ f ih =>
    intro offset x hx
    cases hapi : api offset with
    | error e =>
      simp only [stripeOffsets, hapi, List.mem_singleton] at hx
      exact ⟨0, by omega, fun k' hk' => absurd hk' (Nat.not_lt_zero k')⟩
    | ok res =>
      by_cases hshort : res.length < pageLimit
      · simp only [stripeOffsets, hapi, if_pos hshort, List.mem_singleton] at hx
        exact ⟨0, by omega, fun k' hk' => absurd hk' (Nat.not_lt_zero k')⟩
      · simp only [stripeOffsets, hapi, if_neg hshort, List.mem_cons] at hx
        rcases hx with rfl | hx
        · exact ⟨0, by omega, fun k' hk' => absurd hk' (Nat.not_lt_zero k')⟩
        · obtain ⟨k, hxeq, hcond⟩ := ih (offset + step) x hx
          refine ⟨k + 1, by rw [Nat.succ_mul]; omega, ?_⟩
          intro k' hk'
          cases k' with
          | zero => exact ⟨res, by simpa using hapi, by omega⟩
          | succ j =>
            obtain ⟨r, hr, hrlen⟩ := hcond j (by omega)
            refine ⟨r, ?_, hrlen⟩
            have : offset + (j + 1) * step = offset + step + j * step := by
              rw [Nat.succ_mul]; omega
            rw [this]
            exact hr

theorem stripeOffsets_lower (api : Nat → Except Unit (List α)) (pageLimit step : Nat)
    (fuel offset x : Nat) (hx : x ∈ stripeOffsets api pageLimit step fuel offset) :
    offset ≤ x := by
  obtain ⟨k, hxeq, -⟩ := stripeOffsets_sound api pageLimit step fuel offset x hx
  omega

theorem stripeOffsets_nodup (api : Nat → Except Unit (List α)) (pageLimit : Nat)
    {step : Nat} (hstep : 1 ≤ step) :
    ∀ (fuel offset : Nat), (stripeOffsets api pageLimit step fuel offset).Nodup := by
  intro fuel
  induction fuel with
  | zero => intro offset; simp [stripeOffsets]
  | succ f ih =>
    intro offset
    cases hapi : api offset with
    | error e => simp [stripeOffsets, hapi]
    | ok res =>
      by_cases hshort : res.length < pageLimit
      · simp [stripeOffsets, hapi, hshort]
      · simp only [stripeOffsets, hapi, if_neg hshort]
        refine List.nodup_cons.mpr ⟨?_, ih (offset + step)⟩
        intro hmem
        have := stripeOffsets_lower api pageLimit step f (offset + step) offset hmem
        omega

theorem stripeOffsets_complete (api : Nat → Except Unit (List α)) (pageLimit step : Nat) :
    ∀ (k fuel offset : Nat), k < fuel →
      (∀ k' < k, ∃ res, api (offset + k' * step) = Except.ok res
          ∧ pageLimit ≤ res.length) →
      offset + k * step ∈ stripeOffsets api pageLimit step fuel offset := by
  intro k
  induction k with
  | zero =>
    intro fuel offset hfuel _
    obtain ⟨f, rfl⟩ : ∃ f, fuel = f + 1 := ⟨fuel - 1, by omega⟩
    simp only [Nat.zero_mul, Nat.add_zero]
    cases hapi : api offset with
    | error e => simp [stripeOffsets, hapi]
    | ok res =>
      by_cases hshort : res.length < pageLimit
      · simp [stripeOffsets, hapi, hshort]
      · simp [stripeOffsets, hapi, hshort]
  | succ k ih =>
    intro fuel offset hfuel hcond
    obtain ⟨f, rfl⟩ : ∃ f, fuel = f + 1 := ⟨fuel - 1, by omega⟩
    obtain ⟨res, hres, hlen⟩ := hcond 0 (by omega)
    rw [Nat.zero_mul, Nat.add_zero] at hres
    have hnotshort : ¬ res.length < pageLimit := by omega
    simp only [stripeOffsets, hres, if_neg hnotshort]
    refine List.mem_cons.mpr (Or.inr ?_)
    have heq : offset + (k + 1) * step = offset + step + k * step := by
      rw [Nat.succ_mul]; omega
    rw [heq]
    refine ih f (offset + step) (by omega) ?_
    intro k' hk'
    obtain ⟨r, hr, hrlen⟩ := hcond (k' + 1) (by omega)
    refine ⟨r, ?_, hrlen⟩
    have : offset + step + k' * step = offset + (k' + 1) * step := by
      rw [Nat.succ_mul]; omega
    rw [this]
    exact hr

theorem listApi_full_iff (records : List α) {pageLimit : Nat} (hL : 1 ≤ pageLimit)
    (offset : Nat) :
    (∃ res, listApi records pageLimit offset = Except.ok res
        ∧ pageLimit ≤ res.length)
      ↔ offset + pageLimit ≤ records.length := by
  constructor
  · rintro ⟨res, hres, hlen⟩
    have : res = pageAt records pageLimit offset := by
      simpa [listApi] using hres.symm
    subst this
    rw [pageAt_length] at hlen
    omega
  · intro h
    exact ⟨pageAt records pageLimit offset, rfl, by rw [pageAt_length]; omega⟩

theorem mul_lt_mul_of_index {pageLimit i numWorkers : Nat} (hL : 1 ≤ pageLimit)
    (h : i < numWorkers) : pageLimit * i < pageLimit * numWorkers := by
  have h1 : pageLimit * (i + 1) ≤ pageLimit * numWorkers := Nat.mul_le_mul_left pageLimit h
  have h2 : pageLimit * (i + 1) = pageLimit * i + pageLimit := Nat.mul_succ pageLimit i
  omega

/-- C3 (amended): for page limit L ≥ 1 and worker count 1 ≤ N ≤ 5 (for
N ≥ 6 the run blocks during seeding and attempts nothing), against the
deterministic record-backed API the offsets attempted by `fetchAll` are
exactly the union over workers i < N of the stripe i·L + k·(L·N) truncated
at the stripe's first partial page: no offset is attempted twice, every
multiple of L below the data length is attempted, and an offset is
attempted exactly when every earlier offset of its stripe had a full page. -/
theorem attemptedOffsets_characterization (records : List α)
    (numWorkers pageLimit fuel : Nat) (hL : 1 ≤ pageLimit) (hN : 1 ≤ numWorkers)
    (hN5 : numWorkers ≤ 5) (hfuel : records.length + 1 ≤ fuel) :
    (attemptedOffsets (listApi records pageLimit) numWorkers pageLimit fuel).Nodup
      ∧ (∀ j, pageLimit * j < records.length →
          pageLimit * j
            ∈ attemptedOffsets (listApi records pageLimit) numWorkers pageLimit fuel)
      ∧ (∀ x ∈ attemptedOffsets (listApi records pageLimit) numWorkers pageLimit fuel,
          ∃ i k, i < numWorkers ∧ x = pageLimit * i + k * (pageLimit * numWorkers)
            ∧ ∀ k' < k, pageLimit * i + k' * (pageLimit * numWorkers) + pageLimit
                ≤ records.length)
      ∧ (∀ i k, i < numWorkers →
          (∀ k' < k, pageLimit * i + k' * (pageLimit * numWorkers) + pageLimit
              ≤ records.length) →
          pageLimit * i + k * (pageLimit * numWorkers)
            ∈ attemptedOffsets (listApi records pageLimit) numWorkers pageLimit fuel) := by
  have hgate : ¬ 5 < numWorkers := by omega
  have hstep1 : 1 ≤ pageLimit * numWorkers := Nat.mul_pos hL hN
  have hmem : ∀ i k, i < numWorkers →
      (∀ k' < k, pageLimit * i + k' * (pageLimit * numWorkers) + pageLimit
          ≤ records.length) →
      pageLimit * i + k * (pageLimit * numWorkers)
        ∈ attemptedOffsets (listApi records pageLimit) numWorkers pageLimit fuel := by
    intro i k hi hcond
    have hkfuel : k < fuel := by
      cases k with
      | zero => omega
      | succ m =>
        have h1 := hcond m (by omega)
        have h2 : m ≤ m * (pageLimit * numWorkers) :=
          Nat.le_mul_of_pos_right m hstep1
        omega
    have hcond' : ∀ k' < k, ∃ res,
        listApi records pageLimit (pageLimit * i + k' * (pageLimit * numWorkers))
          = Except.ok res ∧ pageLimit ≤ res.length := by
      intro k' hk'
      exact (listApi_full_iff records hL _).mpr (hcond k' hk')
    have hms := stripeOffsets_complete (listApi records pageLimit) pageLimit
      (pageLimit * numWorkers) k fuel (pageLimit * i) hkfuel hcond'
    unfold attemptedOffsets
    rw [if_neg hgate]
    exact List.mem_flatten.mpr ⟨_, List.mem_map.mpr ⟨i, List.mem_range.mpr hi, rfl⟩, hms⟩
  refine ⟨?_, ?_, ?_, hmem⟩
  · unfold attemptedOffsets
    rw [if_neg hgate]
    apply List.nodup_flatten.mpr
    constructor
    · intro s hs
      obtain ⟨i, _, rfl⟩ := List.mem_map.mp hs
      exact stripeOffsets_nodup _ _ hstep1 fuel _
    · rw [List.pairwise_map]
      refine List.Pairwise.imp_of_mem ?_ (List.pairwise_lt_range numWorkers)
      intro i j hi hj hij x hxi hxj
      have hjN : j < numWorkers := List.mem_range.mp hj
      have hiN : i < numWorkers := by omega
      obtain ⟨k, hk, -⟩ := stripeOffsets_sound _ _ _ fuel _ x hxi
      obtain ⟨k', hk', -⟩ := stripeOffsets_sound _ _ _ fuel _ x hxj
      have hi' : pageLimit * i < pageLimit * numWorkers := mul_lt_mul_of_index hL hiN
      have hj' : pageLimit * j < pageLimit * numWorkers := mul_lt_mul_of_index hL hjN
      have h1 : (pageLimit * i + k * (pageLimit * numWorkers)) % (pageLimit * numWorkers)
          = pageLimit * i := by
        rw [Nat.add_mul_mod_self_right, Nat.mod_eq_of_lt hi']
      have h2 : (pageLimit * j + k' * (pageLimit * numWorkers)) % (pageLimit * numWorkers)
          = pageLimit * j := by
        rw [Nat.add_mul_mod_self_right, Nat.mod_eq_of_lt hj']
      rw [← hk] at h1
      rw [← hk'] at h2
      have : pageLimit * i = pageLimit * j := by omega
      have : i = j := Nat.eq_of_mul_eq_mul_left (by omega) this
      omega
  · intro j hj
    have hN0 : 0 < numWorkers := by omega
    have hiN : j % numWorkers < numWorkers := Nat.mod_lt j hN0
    have hjeq : numWorkers * (j / numWorkers) + j % numWorkers = j := Nat.div_add_mod j numWorkers
    have hoeq : pageLimit * j = pageLimit * (j % numWorkers)
        + (j / numWorkers) * (pageLimit * numWorkers) := by
      conv_lhs => rw [← hjeq]
      ring
    have hcond : ∀ k' < j / numWorkers,
        pageLimit * (j % numWorkers) + k' * (pageLimit * numWorkers) + pageLimit
          ≤ records.length := by
      intro k' hk'
      have ha : (k' + 1) * (pageLimit * numWorkers)
          ≤ (j / numWorkers) * (pageLimit * numWorkers) :=
        Nat.mul_le_mul_right _ (by omega)
      have hb : (k' + 1) * (pageLimit * numWorkers)
          = k' * (pageLimit * numWorkers) + pageLimit * numWorkers :=
        Nat.succ_mul k' (pageLimit * numWorkers)
      have hc : pageLimit ≤ pageLimit * numWorkers :=
        Nat.le_mul_of_pos_right pageLimit hN
      omega
    rw [hoeq]
    exact hmem (j % numWorkers) (j / numWorkers) hiN hcond
  · intro x hx
    unfold attemptedOffsets at hx
    rw [if_neg hgate] at hx
    obtain ⟨s, hs, hxs⟩ := List.mem_flatten.mp hx
    obtain ⟨i, hi, rfl⟩ := List.mem_map.mp hs
    obtain ⟨k, hxeq, hcond⟩ := stripeOffsets_sound _ _ _ fuel _ x hxs
    exact ⟨i, k, List.mem_range.mp hi, hxeq,
      fun k' hk' => (listApi_full_iff records hL _).mp (hcond k' hk')⟩

/-- C3 witness: the K = 5, L = 2, N = 2 configuration — no duplicate
attempts, and the multiple-of-L offset 2 (which is below the data length)
is attempted. -/
theorem attemptedOffsets_witness :
    (1 ≤ 2 ∧ 2 ≤ 5 ∧ ([0, 1, 2, 3, 4] : List Nat).length + 1 ≤ 6)
      ∧ (attemptedOffsets (listApi [0, 1, 2, 3, 4] 2) 2 2 6).Nodup
      ∧ 2 * 1 ∈ attemptedOffsets (listApi [0, 1, 2, 3, 4] 2) 2 2 6 := by
  have h := attemptedOffsets_characterization ([0, 1, 2, 3, 4] : List Nat) 2 2 6
    (by decide) (by decide) (by decide) (by decide)
  exact ⟨by decide, h.1, h.2.1 1 (by decide)⟩

/-- C3 counterexample: for worker count N = 6 the claimed coverage fails —
the run blocks while seeding the capacity-5 offset channel, so no offset at
all is attempted; in particular offset 0 = 0·L, which lies below the data
length and which the claimed stripe union contains, is never attempted. -/
theorem attemptedOffsets_six_workers_empty :
    attemptedOffsets (listApi [0, 1, 2, 3, 4] 2) 6 2 100 = []
      ∧ 2 * 0 ∉ attemptedOffsets (listApi [0, 1, 2, 3, 4] 2) 6 2 100 := by
  exact ⟨rfl, by decide⟩

/-- C4 (the code at the failing input): `retrieveAuthToken` checks neither
`res.StatusCode` nor the token contents, so a non-success response (status
400) whose JSON body decodes — as Twitch error bodies do, unknown fields
being ignored — is returned as a success carrying the zero-valued token; a
transport failure and a body-decode failure do return errors. -/
theorem retrieveAuthToken_ignores_status :
    retrieveAuthToken (Except.ok ⟨400, some ⟨"", 0, ""⟩⟩) = Except.ok ⟨"", 0, ""⟩
      ∧ retrieveAuthToken (Except.error ()) = Except.error ()
      ∧ retrieveAuthToken (Except.ok ⟨200, none⟩) = Except.error () := by
  exact ⟨rfl, rfl, rfl⟩

theorem stripeDone_reason (api : Nat → Except Unit (List α)) (pageLimit step : Nat) :
    ∀ (fuel offset : Nat), stripeDone api pageLimit step fuel offset = true →
      ∃ o res, o ∈ stripeOffsets api pageLimit step fuel offset
        ∧ api o = Except.ok res ∧ res.length < pageLimit := by
  intro fuel
  induction fuel with
  | zero => intro offset h; simp [stripeDone] at h
  | succ f ih =>
    intro offset h
    cases hapi : api offset with
    | error e => simp [stripeDone, hapi] at h
    | ok res =>
      by_cases hshort : res.length < pageLimit
      · exact ⟨offset, res, by simp [stripeOffsets, hapi, hshort], hapi, hshort⟩
      · simp only [stripeDone, hapi, if_neg hshort] at h
        obtain ⟨o, r, hmem, hr, hrshort⟩ := ih (offset + step) h
        refine ⟨o, r, ?_, hr, hrshort⟩
        simp only [stripeOffsets, hapi, if_neg hshort]
        exact List.mem_cons_of_mem offset hmem

/-- C5 (amended): on a partial page the worker appends exactly that page's
records, attempts no further offset of the stripe, and returns — and a
worker returns (`stripeDone`) only because some attempted offset produced a
partial page; however a stripe can also end with no further offset enqueued
when a `FetchError` abandons it, without any partial page. -/
theorem shortPage_appends_then_ends_stripe (api : Nat → Except Unit (List α))
    (pageLimit step fuel offset : Nat) (res : List α)
    (hok : api offset = Except.ok res) (hshort : res.length < pageLimit) :
    stripeRun api pageLimit step (fuel + 1) offset = res
      ∧ stripeOffsets api pageLimit step (fuel + 1) offset = [offset]
      ∧ stripeDone api pageLimit step (fuel + 1) offset = true
      ∧ (∀ fuel' offset', stripeDone api pageLimit step fuel' offset' = true →
          ∃ o r, o ∈ stripeOffsets api pageLimit step fuel' offset'
            ∧ api o = Except.ok r ∧ r.length < pageLimit) := by
  refine ⟨?_, ?_, ?_, fun fuel' offset' h => stripeDone_reason api pageLimit step fuel' offset' h⟩
  · simp [stripeRun, hok, hshort]
  · simp [stripeOffsets, hok, hshort]
  · simp [stripeDone, hok, hshort]

/-- C5 witness: a page of length 1 < 2 at offset 0 — its single record is
appended, offset 0 is the only attempted offset, the worker returns. -/
theorem shortPage_witness :
    stripeRun (fun _ => Except.ok ([9] : List Nat)) 2 2 5 0 = [9]
      ∧ stripeOffsets (fun _ => Except.ok ([9] : List Nat)) 2 2 5 0 = [0]
      ∧ stripeDone (fun _ => Except.ok ([9] : List Nat)) 2 2 5 0 = true := by
  have h := shortPage_appends_then_ends_stripe (fun _ => Except.ok ([9] : List Nat))
    2 2 4 0 [9] rfl (by decide)
  exact ⟨h.1, h.2.1, h.2.2.1⟩

/-- C5 counterexample: a stripe whose first fetch errors terminates — it is
attempted exactly once and no further offset of it is ever enqueued — yet
no partial page was returned for it (`stripeDone` = false, and indeed no
page at all was appended), so "a stripe terminates only via a partial page"
fails on the code. -/
theorem erroring_stripe_ends_without_short_page :
    stripeOffsets (fun _ => (Except.error () : Except Unit (List Nat))) 2 2 100 0 = [0]
      ∧ stripeDone (fun _ => (Except.error () : Except Unit (List Nat))) 2 2 100 0 = false
      ∧ stripeRun (fun _ => (Except.error () : Except Unit (List Nat))) 2 2 100 0 = [] := by
  exact ⟨by decide, by decide, by decide⟩

theorem stripeRun_eq_flatten_stripePages (api : Nat → Except Unit (List α))
    (pageLimit step : Nat) :
    ∀ (fuel offset : Nat), stripeRun api pageLimit step fuel offset
      = (stripePages api pageLimit step fuel offset).flatten := by
  intro fuel
  induction fuel with
  | zero => intro offset; rfl
  | succ f ih =>
    intro offset
    cases hapi : api offset with
    | error e => simp [stripeRun, stripePages, hapi]
    | ok res =>
      by_cases hshort : res.length < pageLimit
      · simp [stripeRun, stripePages, hapi, hshort]
      · simp [stripeRun, stripePages, hapi, hshort, ih (offset + step)]

theorem aggregated_eq_pagesOf_flatten (api : Nat → Except Unit (List α))
    (numWorkers pageLimit fuel : Nat) (h5 : ¬ 5 < numWorkers) :
    aggregated api numWorkers pageLimit fuel
      = (pagesOf api numWorkers pageLimit fuel).flatten := by
  unfold aggregated pagesOf
  rw [if_neg h5]
  have : ∀ l : List Nat,
      ((l.map fun i =>
        stripeRun api pageLimit (pageLimit * numWorkers) fuel (pageLimit * i)).flatten)
      = (((l.map fun i =>
          stripePages api pageLimit (pageLimit * numWorkers) fuel (pageLimit * i)).flatten).flatten) := by
    intro l
    induction l with
    | nil => rfl
    | cons a l ih =>
      simp only [List.map_cons, List.flatten_cons, List.flatten_append]
      rw [stripeRun_eq_flatten_stripePages, ih]
  exact this (List.range numWorkers)

/-- C8: any two runs of `fetchAll` against the same deterministic API with
the same worker count and page limit aggregate the same pages in possibly
different arrival orders, so their results are permutations of each other
— the same multiset, hence the same set, of records; and the model's
canonical aggregation is itself such a run. -/
theorem fetchAll_idempotent_set (records : List α) (numWorkers pageLimit fuel : Nat)
    (ps₁ ps₂ : List (List α))
    (h₁ : List.Perm ps₁ (pagesOf (listApi records pageLimit) numWorkers pageLimit fuel))
    (h₂ : List.Perm ps₂ (pagesOf (listApi records pageLimit) numWorkers pageLimit fuel)) :
    List.Perm ps₁.flatten ps₂.flatten
      ∧ (∀ x, x ∈ ps₁.flatten ↔ x ∈ ps₂.flatten)
      ∧ (¬ 5 < numWorkers →
          List.Perm (aggregated (listApi records pageLimit) numWorkers pageLimit fuel)
            ps₁.flatten) := by
  have hp : List.Perm ps₁.flatten ps₂.flatten := (h₁.flatten).trans (h₂.flatten).symm
  refine ⟨hp, fun x => hp.mem_iff, ?_⟩
  intro h5
  rw [aggregated_eq_pagesOf_flatten (listApi records pageLimit) numWorkers pageLimit fuel h5]
  exact (h₁.flatten).symm

/-- C8 witness: K = 3, L = 2, N = 1 — the two pages [0,1] and [2] arriving
in either order give permutation-equal collections. -/
theorem fetchAll_idempotent_witness :
    List.Perm ([[2], [0, 1]] : List (List Nat)) (pagesOf (listApi [0, 1, 2] 2) 1 2 4)
      ∧ List.Perm ([[0, 1], [2]] : List (List Nat)).flatten
          ([[2], [0, 1]] : List (List Nat)).flatten := by
  have h1 : List.Perm ([[0, 1], [2]] : List (List Nat))
      (pagesOf (listApi [0, 1, 2] 2) 1 2 4) := by decide
  have h2 : List.Perm ([[2], [0, 1]] : List (List Nat))
      (pagesOf (listApi [0, 1, 2] 2) 1 2 4) := by decide
  exact ⟨h2, (fetchAll_idempotent_set [0, 1, 2] 1 2 4 [[0, 1], [2]] [[2], [0, 1]] h1 h2).1⟩

/-- C6: if token acquisition fails, `fetchAndStoreData` returns that error
immediately — the run's event trace is empty, so no `fetchQuery` request is
issued for any entity kind and no upload is attempted. -/
theorem authError_aborts_run (env : Env) (e : String)
    (genresApi : Nat → Except Unit (List Genre))
    (gamesApi : Nat → Except Unit (List Game))
    (franchisesApi : Nat → Except Unit (List Franchise))
    (marshalOk uploadOk : String → Bool) (fuel : Nat)
    (h1 : ¬ env.clientID = "") (h2 : ¬ env.clientSecret = "") :
    fetchAndStoreData env (Except.error e) genresApi gamesApi franchisesApi
        marshalOk uploadOk fuel
      = some ([], Except.error e) := by
  unfold fetchAndStoreData
  rw [if_neg (not_or.mpr ⟨h1, h2⟩)]

/-- C6 witness: concrete environment and auth failure. -/
theorem authError_witness :
    fetchAndStoreData ⟨"id", "secret", "bucket"⟩ (Except.error ("boom"))
        (fun _ => Except.ok []) (fun _ => Except.ok []) (fun _ => Except.ok [])
        (fun _ => true) (fun _ => true) 1
      = some ([], Except.error ("boom")) :=
  authError_aborts_run ⟨"id", "secret", "bucket"⟩ ("boom")
    (fun _ => Except.ok []) (fun _ => Except.ok []) (fun _ => Except.ok [])
    (fun _ => true) (fun _ => true) 1 (by decide) (by decide)

theorem stripeEvents_shape (f : Fetcher) (api : Nat → Except Unit (List κ))
    (pageLimit step : Nat) :
    ∀ (fuel offset : Nat) (e : RunEvent), e ∈ stripeEvents f api pageLimit step fuel offset →
      e = RunEvent.wait f.limiter ∨ ∃ o, e = RunEvent.fetchCall f.url o := by
  intro fuel
  induction fuel with
  | zero => intro offset e he; simp [stripeEvents] at he
  | succ fl ih =>
    intro offset e he
    cases hapi : api offset with
    | error err =>
      simp only [stripeEvents, hapi, List.mem_cons, List.not_mem_nil, or_false] at he
      rcases he with rfl | rfl
      · exact Or.inl rfl
      · exact Or.inr ⟨offset, rfl⟩
    | ok res =>
      by_cases hshort : res.length < pageLimit
      · simp only [stripeEvents, hapi, if_pos hshort, List.mem_cons, List.not_mem_nil,
          or_false] at he
        rcases he with rfl | rfl
        · exact Or.inl rfl
        · exact Or.inr ⟨offset, rfl⟩
      · simp only [stripeEvents, hapi, if_neg hshort, List.mem_cons] at he
        rcases he with rfl | rfl | he
        · exact Or.inl rfl
        · exact Or.inr ⟨offset, rfl⟩
        · exact ih (offset + step) e he

theorem fetchAllEvents_shape (f : Fetcher) (api : Nat → Except Unit (List κ))
    (numWorkers pageLimit fuel : Nat) (e : RunEvent)
    (he : e ∈ fetchAllEvents f api numWorkers pageLimit fuel) :
    e = RunEvent.wait f.limiter ∨ ∃ o, e = RunEvent.fetchCall f.url o := by
  unfold fetchAllEvents at he
  by_cases h5 : 5 < numWorkers
  · rw [if_pos h5] at he; simp at he
  · rw [if_neg h5] at he
    obtain ⟨s, hs, hes⟩ := List.mem_flatten.mp he
    obtain ⟨i, _, rfl⟩ := List.mem_map.mp hs
    exact stripeEvents_shape f api pageLimit _ fuel _ e hes

theorem runEvents_tail_shape (env : Env) (tok : AuthTokenResponse)
    (genresApi : Nat → Except Unit (List Genre))
    (gamesApi : Nat → Except Unit (List Game))
    (franchisesApi : Nat → Except Unit (List Franchise))
    (marshalOk uploadOk : String → Bool) (fuel : Nat) (e : RunEvent)
    (he : e ∈ fetchAllEvents (genresFetcher env tok) genresApi 3 500 fuel ++
      fetchAllEvents (gamesFetcher env tok) gamesApi 3 500 fuel ++
      fetchAllEvents (franchisesFetcher env tok) franchisesApi 3 500 fuel ++
      uploadPhase env marshalOk uploadOk) :
    RunEvent.isAlloc e = false
      ∧ (∀ lid, e = RunEvent.wait lid → lid = 0)
      ∧ (∀ key b, e = RunEvent.uploadAttempt key b →
          key ∈ fileNames.filter marshalOk) := by
  simp only [List.mem_append] at he
  rcases he with ((hg | hgm) | hf) | hu
  · rcases fetchAllEvents_shape _ _ _ _ _ _ hg with rfl | ⟨o, rfl⟩
    · exact ⟨rfl, (fun lid h => by injection h with h2; exact h2.symm),
        (fun key b h => by cases h)⟩
    · exact ⟨rfl, (fun lid h => by cases h), (fun key b h => by cases h)⟩
  · rcases fetchAllEvents_shape _ _ _ _ _ _ hgm with rfl | ⟨o, rfl⟩
    · exact ⟨rfl, (fun lid h => by injection h with h2; exact h2.symm),
        (fun key b h => by cases h)⟩
    · exact ⟨rfl, (fun lid h => by cases h), (fun key b h => by cases h)⟩
  · rcases fetchAllEvents_shape _ _ _ _ _ _ hf with rfl | ⟨o, rfl⟩
    · exact ⟨rfl, (fun lid h => by injection h with h2; exact h2.symm),
        (fun key b h => by cases h)⟩
    · exact ⟨rfl, (fun lid h => by cases h), (fun key b h => by cases h)⟩
  · obtain ⟨n, hn, rfl⟩ := List.mem_map.mp hu
    refine ⟨rfl, (fun lid h => by cases h), (fun key b h => ?_)⟩
    injection h with hk hb
    exact hk ▸ hn

theorem fetchAndStoreData_ok_unfold (env : Env) (tok : AuthTokenResponse)
    (genresApi : Nat → Except Unit (List Genre))
    (gamesApi : Nat → Except Unit (List Game))
    (franchisesApi : Nat → Except Unit (List Franchise))
    (marshalOk uploadOk : String → Bool) (fuel : Nat)
    (h1 : ¬ env.clientID = "") (h2 : ¬ env.clientSecret = "") :
    fetchAndStoreData env (Except.ok tok) genresApi gamesApi franchisesApi
        marshalOk uploadOk fuel
      = if (allStripesDone genresApi 3 500 fuel
            && allStripesDone gamesApi 3 500 fuel
            && allStripesDone franchisesApi 3 500 fuel) = true then
          some (runEvents env tok genresApi gamesApi franchisesApi marshalOk uploadOk fuel,
            Except.ok ())
        else none := by
  unfold fetchAndStoreData
  rw [if_neg (not_or.mpr ⟨h1, h2⟩)]

/-- C7: each post-auth run allocates exactly one rate limiter, with rate 4
per second and burst 1; every limiter wait of every worker of every entity
kind's `fetchAll` goes through that single allocation (index 0), and the
trace `fetchAndStoreData` returns is exactly this run trace. -/
theorem single_shared_limiter (env : Env) (tok : AuthTokenResponse)
    (genresApi : Nat → Except Unit (List Genre))
    (gamesApi : Nat → Except Unit (List Game))
    (franchisesApi : Nat → Except Unit (List Franchise))
    (marshalOk uploadOk : String → Bool) (fuel : Nat)
    (h1 : ¬ env.clientID = "") (h2 : ¬ env.clientSecret = "") :
    ((runEvents env tok genresApi gamesApi franchisesApi marshalOk uploadOk fuel).filter
        RunEvent.isAlloc) = [RunEvent.allocLimiter 4 1]
      ∧ (∀ lid, RunEvent.wait lid
            ∈ runEvents env tok genresApi gamesApi franchisesApi marshalOk uploadOk fuel →
          lid = 0)
      ∧ (∀ ev ret, fetchAndStoreData env (Except.ok tok) genresApi gamesApi franchisesApi
            marshalOk uploadOk fuel = some (ev, ret) →
          ev = runEvents env tok genresApi gamesApi franchisesApi marshalOk uploadOk fuel) := by
  refine ⟨?_, ?_, ?_⟩
  · unfold runEvents
    rw [List.filter_cons]
    have hnil : ((fetchAllEvents (genresFetcher env tok) genresApi 3 500 fuel ++
        fetchAllEvents (gamesFetcher env tok) gamesApi 3 500 fuel ++
        fetchAllEvents (franchisesFetcher env tok) franchisesApi 3 500 fuel ++
        uploadPhase env marshalOk uploadOk)).filter RunEvent.isAlloc = [] := by
      refine List.filter_eq_nil_iff.mpr ?_
      intro e he
      have := (runEvents_tail_shape env tok genresApi gamesApi franchisesApi
        marshalOk uploadOk fuel e he).1
      simp [this]
    rw [hnil]
    rfl
  · intro lid hmem
    unfold runEvents at hmem
    rcases List.mem_cons.mp hmem with h | h
    · cases h
    · exact (runEvents_tail_shape env tok genresApi gamesApi franchisesApi
        marshalOk uploadOk fuel _ h).2.1 lid rfl
  · intro ev ret heq
    rw [fetchAndStoreData_ok_unfold env tok genresApi gamesApi franchisesApi
      marshalOk uploadOk fuel h1 h2] at heq
    by_cases hdone : (allStripesDone genresApi 3 500 fuel
        && allStripesDone gamesApi 3 500 fuel
        && allStripesDone franchisesApi 3 500 fuel) = true
    · rw [if_pos hdone] at heq
      simp only [Option.some.injEq, Prod.mk.injEq] at heq
      exact heq.1.symm
    · rw [if_neg hdone] at heq
      cases heq

/-- C7 witness: a concrete run's trace has exactly the one 4-per-second,
burst-1 limiter allocation. -/
theorem single_shared_limiter_witness :
    ((runEvents ⟨"id", "secret", "bucket"⟩ ⟨"tok", 3600, "bearer"⟩
        (fun _ => Except.ok []) (fun _ => Except.ok []) (fun _ => Except.ok [])
        (fun _ => true) (fun _ => true) 1).filter RunEvent.isAlloc)
      = [RunEvent.allocLimiter 4 1] :=
  (single_shared_limiter ⟨"id", "secret", "bucket"⟩ ⟨"tok", 3600, "bearer"⟩
    (fun _ => Except.ok []) (fun _ => Except.ok []) (fun _ => Except.ok [])
    (fun _ => true) (fun _ => true) 1 (by decide) (by decide)).1

/-- C10: once the credentials are set and token acquisition has succeeded,
and the fetch phases complete, `fetchAndStoreData` returns success whatever
the marshal and upload outcomes: every kind whose marshal succeeds gets its
upload attempted (independently of the other kinds and of any upload
failures), a kind whose marshal fails is skipped, and no marshal or upload
error reaches the caller. -/
theorem uploads_best_effort (env : Env) (tok : AuthTokenResponse)
    (genresApi : Nat → Except Unit (List Genre))
    (gamesApi : Nat → Except Unit (List Game))
    (franchisesApi : Nat → Except Unit (List Franchise))
    (marshalOk uploadOk : String → Bool) (fuel : Nat)
    (h1 : ¬ env.clientID = "") (h2 : ¬ env.clientSecret = "")
    (hg : allStripesDone genresApi 3 500 fuel = true)
    (hgm : allStripesDone gamesApi 3 500 fuel = true)
    (hf : allStripesDone franchisesApi 3 500 fuel = true) :
    fetchAndStoreData env (Except.ok tok) genresApi gamesApi franchisesApi
        marshalOk uploadOk fuel
      = some (runEvents env tok genresApi gamesApi franchisesApi marshalOk uploadOk fuel,
          Except.ok ())
      ∧ (∀ name, name ∈ fileNames → marshalOk name = true →
          RunEvent.uploadAttempt name (uploadToS3 env uploadOk name).isOk
            ∈ runEvents env tok genresApi gamesApi franchisesApi marshalOk uploadOk fuel)
      ∧ (∀ name b, marshalOk name = false →
          RunEvent.uploadAttempt name b
            ∉ runEvents env tok genresApi gamesApi franchisesApi marshalOk uploadOk fuel) := by
  refine ⟨?_, ?_, ?_⟩
  · rw [fetchAndStoreData_ok_unfold env tok genresApi gamesApi franchisesApi
      marshalOk uploadOk fuel h1 h2]
    rw [if_pos (by rw [hg, hgm, hf]; rfl)]
  · intro name hn hm
    unfold runEvents
    refine List.mem_cons.mpr (Or.inr ?_)
    refine List.mem_append.mpr (Or.inr ?_)
    unfold uploadPhase
    exact List.mem_map.mpr ⟨name, List.mem_filter.mpr ⟨hn, hm⟩, rfl⟩
  · intro name b hm hmem
    unfold runEvents at hmem
    rcases List.mem_cons.mp hmem with h | h
    · cases h
    · have := (runEvents_tail_shape env tok genresApi gamesApi franchisesApi
        marshalOk uploadOk fuel _ h).2.2 name b rfl
      have hm2 := (List.mem_filter.mp this).2
      rw [hm] at hm2
      cases hm2

/-- C10 witness: concrete run in which every upload fails
(`uploadOk = fun _ => false`) yet `fetchAndStoreData` returns success. -/
theorem uploads_best_effort_witness :
    fetchAndStoreData ⟨"id", "secret", "bucket"⟩ (Except.ok ⟨"tok", 3600, "bearer"⟩)
        (fun _ => Except.ok []) (fun _ => Except.ok []) (fun _ => Except.ok [])
        (fun _ => true) (fun _ => false) 1
      = some (runEvents ⟨"id", "secret", "bucket"⟩ ⟨"tok", 3600, "bearer"⟩
          (fun _ => Except.ok []) (fun _ => Except.ok []) (fun _ => Except.ok [])
          (fun _ => true) (fun _ => false) 1, Except.ok ()) :=
  (uploads_best_effort ⟨"id", "secret", "bucket"⟩ ⟨"tok", 3600, "bearer"⟩
    (fun _ => Except.ok []) (fun _ => Except.ok []) (fun _ => Except.ok [])
    (fun _ => true) (fun _ => false) 1 (by decide) (by decide)
    (by decide) (by decide) (by decide)).1

theorem grantSeq_gap (ts : List ℚ) :
    ∀ s : LimiterState, GrantSeq 4 1 s ts → s.tokens ≤ 1 → ts.Chain' gapR := by
  induction ts with
  | nil => intro s _ _; simp
  | cons t ts ih =>
    intro s hseq hs
    cases hseq with
    | cons _ _ _ hc hrest =>
      have hs1 : (limGrant 4 1 s t).tokens ≤ 0 := by
        have hmin : min (1 : ℚ) (s.tokens + 4 * (t - s.last)) ≤ 1 := min_le_left _ _
        simp only [limGrant, limAdvance]
        linarith
      have hchain : ts.Chain' gapR := ih (limGrant 4 1 s t) hrest (by linarith)
      cases ts with
      | nil => simp
      | cons t₁ ts₂ =>
        refine List.chain'_cons.mpr ⟨?_, hchain⟩
        cases hrest with
        | cons _ _ _ hc₁ _ =>
          have htok : 1 ≤ (limAdvance 4 1 (limGrant 4 1 s t) t₁).tokens := hc₁.2
          have h1 : (limAdvance 4 1 (limGrant 4 1 s t) t₁).tokens
              ≤ (limGrant 4 1 s t).tokens + 4 * (t₁ - t) := by
            simp only [limAdvance, limGrant]
            exact min_le_right _ _
          unfold gapR
          linarith

theorem pairwise_gap_window (l : List ℚ) :
    ∀ (n : Nat) (b : ℚ), l.Pairwise gapR →
      (∀ x ∈ l, b ≤ x ∧ x < b + (n : ℚ)/4) → l.length ≤ n := by
  induction l with
  | nil => intro n b _ _; simp
  | cons x l ih =>
    intro n b hpw hbd
    obtain ⟨hx1, hx2⟩ := hbd x (List.mem_cons_self x l)
    obtain ⟨hhead, htail⟩ := List.pairwise_cons.mp hpw
    cases n with
    | zero =>
      exfalso
      push_cast at hx2
      linarith
    | succ m =>
      have hbd' : ∀ y ∈ l, x + 1/4 ≤ y ∧ y < (x + 1/4) + (m : ℚ)/4 := by
        intro y hy
        refine ⟨hhead y hy, ?_⟩
        have h2 := (hbd y (List.mem_cons_of_mem x hy)).2
        push_cast at h2 ⊢
        linarith
      have hlen := ih m (x + 1/4) htail hbd'
      simp only [List.length_cons]
      omega

/-- C9: the shared 4-per-second burst-1 token bucket admits at most 4
request-starts in any rolling one-second window [w, w+1), whatever the
demand pattern of the workers — in particular under N = 5 workers across
all entity kinds, since every `fetchQuery` start is gated by one grant of
the single shared limiter. -/
theorem rate_bound (ts : List ℚ) (s : LimiterState) (hs : s.tokens ≤ 1)
    (hseq : GrantSeq 4 1 s ts) (w : ℚ) :
    (ts.filter fun t => decide (w ≤ t) && decide (t < w + 1)).length ≤ 4 := by
  have hchain := grantSeq_gap ts s hseq hs
  have hpw : ts.Pairwise gapR := List.chain'_iff_pairwise.mp hchain
  have hpwf := hpw.filter (fun t => decide (w ≤ t) && decide (t < w + 1))
  refine pairwise_gap_window _ 4 w hpwf ?_
  intro x hx
  have hcond := (List.mem_filter.mp hx).2
  simp only [Bool.and_eq_true, decide_eq_true_eq] at hcond
  refine ⟨hcond.1, ?_⟩
  have h4 : ((4 : Nat) : ℚ)/4 = 1 := by norm_num
  rw [h4]
  exact hcond.2

/-- C9 witness: the grant times 0, 1, 2 are admissible for the 4/sec
burst-1 bucket started full, and the window [0, 1) holds at most 4 starts. -/
theorem rate_bound_witness :
    GrantSeq 4 1 ⟨1, 0⟩ [0, 1, 2]
      ∧ (([0, 1, 2] : List ℚ).filter
          fun t => decide ((0 : ℚ) ≤ t) && decide (t < 0 + 1)).length ≤ 4 := by
  have h0 : CanGrant 4 1 ⟨1, 0⟩ 0 := by
    refine ⟨le_refl 0, ?_⟩
    show (1 : ℚ) ≤ min 1 (1 + 4 * (0 - 0))
    norm_num
  have h1 : CanGrant 4 1 (limGrant 4 1 ⟨1, 0⟩ 0) 1 := by
    constructor
    · show (0 : ℚ) ≤ 1
      norm_num
    · show (1 : ℚ) ≤ min 1 (min 1 (1 + 4 * (0 - 0)) - 1 + 4 * (1 - 0))
      norm_num
  have h2 : CanGrant 4 1 (limGrant 4 1 (limGrant 4 1 ⟨1, 0⟩ 0) 1) 2 := by
    constructor
    · show (1 : ℚ) ≤ 2
      norm_num
    · show (1 : ℚ) ≤ min 1 (min 1 (min 1 (1 + 4 * (0 - 0)) - 1 + 4 * (1 - 0)) - 1 + 4 * (2 - 1))
      norm_num
  have hseq : GrantSeq 4 1 ⟨1, 0⟩ [0, 1, 2] :=
    GrantSeq.cons _ _ _ h0 (GrantSeq.cons _ _ _ h1 (GrantSeq.cons _ _ _ h2 (GrantSeq.nil _)))
  exact ⟨hseq, rate_bound [0, 1, 2] ⟨1, 0⟩ (by norm_num) hseq 0⟩
